import Mathlib

/-!
Verification of the reducer-comparison core of the semcheck repository
(`src/py/reducer_test.py`).

The two strategies under study are embedded shallowly:

* `EmbeddingReducer.findRelevantContext` models
  `EmbeddingReducer.find_relevant_context`.  The similarity provider
  (sentence-transformer encoding plus cosine similarity) is an external
  black box; it is modelled as a function `score : List Char → ℚ` giving
  the similarity of each eligible line's text against the fixed query,
  so that `similarities = line_texts.map score` has one entry per
  eligible line exactly as `cosine_similarity(query_emb, line_embs)[0]`
  does.  `np.argsort` is modelled as a stable ascending argsort (numpy
  uses insertion sort on small inputs, which is stable, and the spec
  itself demands a deterministic stable rule).  Wall-clock readings are
  opaque external inputs, passed as parameters `tTotal`, `tEncoding`,
  `tSimilarity`; the Python `time.time()` arithmetic is not modelled
  beyond which reading is returned on which path.  The instance state
  `self.last_timing` is threaded explicitly: the function takes the
  previous value and returns the new one.

* `TextTilingReducer.findRelevantContext` models
  `TextTilingReducer.find_relevant_context`.  The segmentation provider
  (`TextTilingTokenizer.tokenize`) is modelled as
  `segf : List Char → Option (List (List Char))`, `none` meaning the
  provider raised.

Strings are modelled as `List Char`; the Python string operations used
by the source (`split('\n')`, `'\n'.join`, `str.split()`, `strip`,
`lower`, substring membership, `count('\n')`, slices with negative
bounds) are defined below with Python semantics.  Python float
arithmetic on the heuristic scores is modelled over `ℚ` (the constants
0.3 and 0.1 become 3/10 and 1/10); the claims under study concern the
structure of the formulas, not float rounding.
-/

/-- The whitespace characters recognised by Python's `str.strip()` and
`str.split()` (space, tab, newline, carriage return, vertical tab,
form feed). -/
def pyIsSpace (c : Char) : Bool :=
  c == ' ' || c == '\t' || c == '\n' || c == '\r' ||
  c == Char.ofNat 11 || c == Char.ofNat 12

/-- Python `str.strip()`: drop leading and trailing whitespace. -/
def strip (s : List Char) : List Char :=
  ((s.dropWhile pyIsSpace).reverse.dropWhile pyIsSpace).reverse

/-- Python `str.lower()` (ASCII fragment, which is all the source uses). -/
def lowerL (s : List Char) : List Char := s.map Char.toLower

/-- Split a character list at every character satisfying `p`; a list
with `n` separator occurrences yields `n + 1` pieces, like Python's
`str.split(sep)` for a one-character separator. -/
def splitBy (p : Char → Bool) : List Char → List (List Char)
  | [] => [[]]
  | c :: cs =>
      if p c then [] :: splitBy p cs
      else
        match splitBy p cs with
        | [] => [[c]]
        | h :: t => (c :: h) :: t

/-- Python `content.split('\n')`. -/
def splitNL (s : List Char) : List (List Char) := splitBy (· == '\n') s

/-- Python `sep.join(pieces)`. -/
def joinWith (sep : List Char) : List (List Char) → List Char
  | [] => []
  | [x] => x
  | x :: y :: t => x ++ sep ++ joinWith sep (y :: t)

/-- Python `'\n'.join(pieces)`. -/
def joinNL (pieces : List (List Char)) : List Char := joinWith ['\n'] pieces

/-- Python `str.split()` with no argument: split on whitespace runs,
discarding empty pieces. -/
def pySplitWs (s : List Char) : List (List Char) :=
  (splitBy pyIsSpace s).filter (fun w => !w.isEmpty)

/-- Python substring test helper: does `pat` start the text? -/
def leadsWith : List Char → List Char → Bool
  | [], _ => true
  | _ :: _, [] => false
  | a :: pat, b :: s => a == b && leadsWith pat s

/-- Python `pat in text` for strings: contiguous substring occurrence. -/
def occursIn (pat : List Char) : List Char → Bool
  | [] => pat.isEmpty
  | c :: cs => leadsWith pat (c :: cs) || occursIn pat cs

/-- Python slice `xs[a:b]` for `0 ≤ a`, `0 ≤ b` (both clipped to the
length by `take`/`drop`). -/
def pySlice (xs : List α) (a b : ℕ) : List α := (xs.take b).drop a

/-- Python slice `xs[-k:]` for an arbitrary integer `k`: for `k > 0`
the last `k` elements (all of `xs` when `k ≥ len`), for `k = 0` all of
`xs` (since `-0 = 0`), for `k < 0` the slice `xs[(-k):]`. -/
def pyTailSlice (xs : List α) (k : ℤ) : List α :=
  if 0 < k then xs.drop (xs.length - k.toNat) else xs.drop (-k).toNat

/-- Python slice `xs[:k]` for an arbitrary integer `k`: for `k ≥ 0` the
first `k` elements, for `k < 0` all but the last `-k`. -/
def pyHeadSlice (xs : List α) (k : ℤ) : List α :=
  if 0 ≤ k then xs.take k.toNat else xs.take (xs.length - (-k).toNat)

/-- Pair every element with its position, like Python `enumerate`. -/
def enumL (xs : List α) : List (ℕ × α) := (List.range xs.length).zip xs

/-! ### Stable sorts

Python's `list.sort(key=...)` and (on the small tied inputs at issue)
`np.argsort` are stable.  Both are modelled by insertion sorts built by
a left fold: each element is inserted after every already-placed
element it does not strictly beat, so equal keys keep their original
relative order. -/

/-- Insert `p` into an ascending-by-`f` list, after all elements whose
key is `≤ f p` (stable ascending insertion). -/
def insKeyA {β : Type _} [LinearOrder β] (f : α → β) (p : α) : List α → List α
  | [] => [p]
  | q :: qs => if f p < f q then p :: q :: qs else q :: insKeyA f p qs

/-- Stable ascending sort by key `f`. -/
def sortKeyA {β : Type _} [LinearOrder β] (f : α → β) (xs : List α) : List α :=
  xs.foldl (fun acc p => insKeyA f p acc) []

/-- Insert `p` into a descending-by-`f` list, after all elements whose
key is `≥ f p` (stable descending insertion, like Python's
`sort(key=..., reverse=True)`). -/
def insKeyD {β : Type _} [LinearOrder β] (f : α → β) (p : α) : List α → List α
  | [] => [p]
  | q :: qs => if f q < f p then p :: q :: qs else q :: insKeyD f p qs

/-- Stable descending sort by key `f`. -/
def sortKeyD {β : Type _} [LinearOrder β] (f : α → β) (xs : List α) : List α :=
  xs.foldl (fun acc p => insKeyD f p acc) []


/-! ### The Embedding Reducer

Shallow embedding of `EmbeddingReducer.find_relevant_context`
(`src/py/reducer_test.py`, lines 19–73), split into the intermediate
stages of the Python function so that individual stages can be reasoned
about. -/

/-- The timing dictionary stored in `self.last_timing` by the embedding
reducer. -/
structure EmbedTiming where
  totalTime : ℚ
  encodingTime : ℚ
  similarityTime : ℚ
  numLines : ℕ
  queryLength : ℕ
deriving DecidableEq

/-- `valid_lines`: the `(index, line)` pairs whose line is non-blank
after stripping and longer than 10 characters (line 26–27). -/
def validLines (lines : List (List Char)) : List (ℕ × List Char) :=
  (enumL lines).filter
    (fun p => !(strip p.2).isEmpty && decide ((strip p.2).length > 10))

/-- `np.argsort(similarities)`: positions of the scores in stable
ascending order of score (line 45). -/
def argsortStable (xs : List ℚ) : List ℕ :=
  (sortKeyA Prod.snd (enumL xs)).map Prod.fst

/-- `np.argsort(similarities)[-top_k:][::-1]` (line 45): the selected
positions in the scoring batch, best first. -/
def topIndices (sims : List ℚ) (topK : ℤ) : List ℕ :=
  (pyTailSlice (argsortStable sims) topK).reverse

/-- The per-line similarity scores, one per eligible line (line 42):
the provider is the black-box `score`. -/
def simScores (score : List Char → ℚ) (vs : List (ℕ × List Char)) : List ℚ :=
  (vs.map Prod.snd).map score

/-- The original document indices of the selected lines
(`line_indices[idx]` for each selected batch position, line 51). -/
def embedSelected (score : List Char → ℚ) (topK : ℤ) (content : List Char) :
    List ℕ :=
  let vs := validLines (splitNL content)
  (topIndices (simScores score vs) topK).map
    (fun i => (vs.map Prod.fst).getD i 0)

/-- The context window around one selected line: indices in
`[idx - before, idx + after]` clipped to `[0, len)` (lines 52–55;
natural subtraction performs the clip at 0 that the `0 <= i` test
performs in Python). -/
def windowIdx (len idx before after : ℕ) : Finset ℕ :=
  (Finset.range len).filter (fun i => idx - before ≤ i ∧ i ≤ idx + after)

/-- `context_indices`: the union of all selected lines' windows
(lines 49–55). -/
def ctxSet (len : ℕ) (actuals : List ℕ) (before after : ℕ) : Finset ℕ :=
  actuals.foldl (fun s a => s ∪ windowIdx len a before after) ∅

/-- `sorted(context_indices)` (line 59): the output line indices in
ascending order.  Every member of `ctxSet` lies below the line count,
so enumerating `range` and keeping the members of the set produces
exactly the sorted list of the set. -/
def embedOutIdx (score : List Char → ℚ) (topK : ℤ) (content : List Char)
    (before after : ℕ) : List ℕ :=
  (List.range (splitNL content).length).filter
    (fun i => decide (i ∈ ctxSet (splitNL content).length
      (embedSelected score topK content) before after))

/-- `EmbeddingReducer.find_relevant_context`.  `score` stands for the
similarity provider, `topK` for `self.top_k`; `tTotal`, `tEncoding`
and `tSimilarity` are the wall-clock readings of the run; `prev` is the
value of `self.last_timing` before the call.  Returns the reduced text,
the returned elapsed time, and the value of `self.last_timing` after
the call. -/
def EmbeddingReducer.findRelevantContext (score : List Char → ℚ) (topK : ℤ)
    (content query : List Char) (before after : ℕ)
    (tTotal tEncoding tSimilarity : ℚ) (prev : Option EmbedTiming) :
    List Char × ℚ × Option EmbedTiming :=
  let lines := splitNL content
  let vs := validLines lines
  if vs.isEmpty then (joinNL lines, 0, prev)
  else
    let outIdx := embedOutIdx score topK content before after
    (joinNL (outIdx.map (fun i => lines.getD i [])), tTotal,
      some ⟨tTotal, tEncoding, tSimilarity, (vs.map Prod.snd).length,
        query.length⟩)

/-! ### The TextTiling Reducer

Shallow embedding of `TextTilingReducer.find_relevant_context`
(`src/py/reducer_test.py`, lines 103–159). -/

/-- The timing dictionary stored in `self.last_timing` by the
TextTiling reducer. -/
structure TileTiming where
  totalTime : ℚ
  numSegments : ℕ
  queryLength : ℕ
deriving DecidableEq

/-- The fixed `key_terms` list (line 126). -/
def keyTerms : List (List Char) :=
  ["status".data, "code".data, "response".data, "request".data, "http".data]

/-- `query_words = set(query.lower().split())` (line 116), as a
finite set of words. -/
def queryWordSet (q : List Char) : Finset (List Char) :=
  (pySplitWs (lowerL q)).toFinset

/-- `normalized_score` (lines 122–123): the size of the intersection of
the query and segment word sets over the number of distinct query
words, or 0 for a wordless query. -/
def normalizedScore (q seg : List Char) : ℚ :=
  let qs := queryWordSet q
  if qs = ∅ then 0
  else ((qs ∩ (pySplitWs (lowerL seg)).toFinset).card : ℚ) / qs.card

/-- `key_term_score` (lines 126–127): how many of the five key terms
occur as substrings of the lowercased segment. -/
def keyTermScore (seg : List Char) : ℕ :=
  (keyTerms.filter (fun t => occursIn t (lowerL seg))).length

/-- `density_score` (lines 130–131): non-blank stripped lines over
`max(1, segment.count('\n'))`. -/
def densityScore (seg : List Char) : ℚ :=
  ((((splitNL seg).map strip).filter (fun l => !l.isEmpty)).length : ℚ) /
    (max 1 (seg.count '\n') : ℕ)

/-- `total_score` (line 133). -/
def totalScore (q seg : List Char) : ℚ :=
  normalizedScore q seg + (keyTermScore seg : ℚ) * (3 / 10) +
    densityScore seg * (1 / 10)

/-- `segment_scores` (lines 115–134): each segment with its original
position and composite score. -/
def tileScored (q : List Char) (segs : List (List Char)) :
    List (ℕ × ℚ × List Char) :=
  (enumL segs).map (fun p => (p.1, totalScore q p.2, p.2))

/-- `top_segments` after both sorts (lines 137–141): stable sort by
score descending, truncate to `max_segments`, stable sort by original
position ascending. -/
def tileSelected (maxSegments : ℤ) (q : List Char)
    (segs : List (List Char)) : List (ℕ × ℚ × List Char) :=
  sortKeyA (fun t => t.1)
    (pyHeadSlice (sortKeyD (fun t => t.2.1) (tileScored q segs)) maxSegments)

/-- The midpoint fallback text (lines 146–148):
`'\n'.join(lines[max(0, mid_point-10):mid_point+10])`. -/
def tileFallback (content : List Char) : List Char :=
  let lines := splitNL content
  let mid := lines.length / 2
  joinNL (pySlice lines (mid - 10) (mid + 10))

/-- `TextTilingReducer.find_relevant_context`.  `segf` stands for
`self.tokenizer.tokenize`, with `none` meaning the tokenizer raised;
`tTotal` is the wall-clock reading of the run; `prev` is
`self.last_timing` before the call.  Returns the result text, the
returned elapsed time, and `self.last_timing` after the call
(`num_segments` is 0 on the fallback path because `segments` was never
assigned). -/
def TextTilingReducer.findRelevantContext
    (segf : List Char → Option (List (List Char))) (maxSegments : ℤ)
    (content query : List Char) (tTotal : ℚ) (prev : Option TileTiming) :
    List Char × ℚ × Option TileTiming :=
  match segf content with
  | none =>
      (tileFallback content, tTotal, some ⟨tTotal, 0, query.length⟩)
  | some segs =>
      if segs.isEmpty then (content, 0, prev)
      else
        (joinWith ['\n', '\n']
          ((tileSelected maxSegments query segs).map (fun t => t.2.2)),
          tTotal, some ⟨tTotal, segs.length, query.length⟩)

/-! ### Definitions taken from the specification's words

These restate parts of the specification text, to be compared with the
definitions embedded from the source.  Only the composite-score formula
and the fallback window are restated; everything else above is
translated from the source. -/

/-- The specification's fixed keyword set
`{"status","code","response","request","http"}`. -/
def specKeywords : List (List Char) :=
  ["status".data, "code".data, "response".data, "request".data, "http".data]

/-- The specification's `lexicalOverlap`: the number of case-folded
query words also present among the segment's case-folded words, divided
by the number of distinct query words; 0 when the query has no words. -/
def specLexicalOverlap (q seg : List Char) : ℚ :=
  let qws := (pySplitWs (lowerL q)).dedup
  if qws = [] then 0
  else
    ((qws.filter (fun w => decide (w ∈ pySplitWs (lowerL seg)))).length : ℚ) /
      qws.length

/-- The specification's `keywordHits`: how many of the fixed keywords
occur case-insensitively as substrings of the segment. -/
def specKeywordHits (seg : List Char) : ℕ :=
  (specKeywords.filter (fun t => occursIn (lowerL t) (lowerL seg))).length

/-- The specification's `densityScore`: the number of non-blank trimmed
lines of the segment over `max 1 (number of newline characters)`. -/
def specDensityScore (seg : List Char) : ℚ :=
  (((splitNL seg).filter (fun l => !(strip l).isEmpty)).length : ℚ) /
    (max 1 (seg.count '\n') : ℕ)

/-- The specification's composite score
`lexicalOverlap + 0.3 * keywordHits + 0.1 * densityScore`. -/
def specCompositeScore (q seg : List Char) : ℚ :=
  specLexicalOverlap q seg + (3 / 10) * specKeywordHits seg +
    (1 / 10) * specDensityScore seg

/-- The specification's fallback output read symmetrically: the lines
with indices in `[mid - 10, mid + 10]` inclusive on both sides (ten
lines before the midpoint line and ten after it), clipped to the
document.  To be compared with `tileFallback`. -/
def specSymmetricMidWindow (content : List Char) : List Char :=
  let lines := splitNL content
  let mid := lines.length / 2
  joinNL (pySlice lines (mid - 10) (mid + 11))

/-! ### Concrete inputs used by counterexamples and witnesses -/

/-- A two-line document whose two lines are both eligible (12
characters each). -/
def docPair : List Char := "aaaaaaaaaaaa".data ++ '\n' :: "bbbbbbbbbbbb".data

/-- A 40-line document with pairwise distinct short lines `0`…`39`. -/
def doc40 : List Char := joinNL ((List.range 40).map (fun i => Nat.toDigits 10 i))

/-- Line `i` of the ten-line scenario document: the decimal digits of
`i` followed by eleven letters, so every line is eligible and lines are
pairwise distinct. -/
def lineC6 (i : ℕ) : List Char := Nat.toDigits 10 i ++ "abcdefghijk".data

/-- The ten-line scenario document (indices 0–9). -/
def doc6 : List Char := joinNL ((List.range 10).map lineC6)

/-- A provider assignment for the scenario document: line 5 scores
highest, line 4 second, every other line 0, so `topK = 2` selects
lines 5 and 4. -/
def score6 (t : List Char) : ℚ :=
  if t = lineC6 5 then 2 else if t = lineC6 4 then 1 else 0


section SplitJoin

theorem splitBy_ne_nil (p : Char → Bool) (s : List Char) : splitBy p s ≠ [] := by
  cases s with
  | nil => simp [splitBy]
  | cons c cs =>
      simp only [splitBy]
      split
      · simp
      · cases h : splitBy p cs <;> simp

theorem joinWith_cons_of_ne_nil (sep a : List Char) (r : List (List Char))
    (h : r ≠ []) : joinWith sep (a :: r) = a ++ sep ++ joinWith sep r := by
  cases r with
  | nil => exact absurd rfl h
  | cons b t => rfl

theorem joinWith_consHead (sep h : List Char) (c : Char) (t : List (List Char)) :
    joinWith sep ((c :: h) :: t) = c :: joinWith sep (h :: t) := by
  cases t <;> simp [joinWith]

/-- Python round trip: `sep.join(s.split(sep)) == s` for a
one-character separator. -/
theorem joinWith_splitBy (x : Char) (s : List Char) :
    joinWith [x] (splitBy (· == x) s) = s := by
  induction s with
  | nil => rfl
  | cons c cs ih =>
      simp only [splitBy]
      by_cases hc : c = x
      · rw [if_pos (by simp [hc])]
        rw [joinWith_cons_of_ne_nil _ _ _ (splitBy_ne_nil _ cs)]
        simp [hc, ih]
      · rw [if_neg (by simp [hc])]
        obtain ⟨h, t, ht⟩ : ∃ h t, splitBy (· == x) cs = h :: t := by
          cases hsp : splitBy (· == x) cs with
          | nil => exact absurd hsp (splitBy_ne_nil _ cs)
          | cons h t => exact ⟨h, t, rfl⟩
        rw [ht]
        rw [joinWith_consHead]
        rw [← ht, ih]

theorem joinNL_splitNL (s : List Char) : joinNL (splitNL s) = s :=
  joinWith_splitBy '\n' s

end SplitJoin

section SortLemmas

variable {β : Type _} [LinearOrder β] (f : α → β)

theorem insKeyA_perm (p : α) (l : List α) : List.Perm (insKeyA f p l) (p :: l) := by
  induction l with
  | nil => exact List.Perm.refl _
  | cons q qs ih =>
      simp only [insKeyA]
      split
      · exact List.Perm.refl _
      · exact ((ih.cons q).trans (List.Perm.swap p q qs))

theorem insKeyD_perm (p : α) (l : List α) : List.Perm (insKeyD f p l) (p :: l) := by
  induction l with
  | nil => exact List.Perm.refl _
  | cons q qs ih =>
      simp only [insKeyD]
      split
      · exact List.Perm.refl _
      · exact ((ih.cons q).trans (List.Perm.swap p q qs))

theorem insKeyA_pairwise (p : α) (l : List α)
    (h : l.Pairwise (fun a b => f a ≤ f b)) :
    (insKeyA f p l).Pairwise (fun a b => f a ≤ f b) := by
  induction l with
  | nil => simp [insKeyA]
  | cons q qs ih =>
      rcases List.pairwise_cons.mp h with ⟨hq, hqs⟩
      simp only [insKeyA]
      split
      · rename_i hlt
        refine List.pairwise_cons.mpr ⟨?_, h⟩
        intro b hb
        rcases List.mem_cons.mp hb with hb | hb
        · exact hb ▸ le_of_lt hlt
        · exact le_of_lt (lt_of_lt_of_le hlt (hq b hb))
      · rename_i hnlt
        refine List.pairwise_cons.mpr ⟨?_, ih hqs⟩
        intro b hb
        rcases List.mem_cons.mp ((insKeyA_perm f p qs).mem_iff.mp hb) with hb | hb
        · exact hb ▸ le_of_not_lt hnlt
        · exact hq b hb

theorem insKeyD_pairwise (p : α) (l : List α)
    (h : l.Pairwise (fun a b => f b ≤ f a)) :
    (insKeyD f p l).Pairwise (fun a b => f b ≤ f a) := by
  induction l with
  | nil => simp [insKeyD]
  | cons q qs ih =>
      rcases List.pairwise_cons.mp h with ⟨hq, hqs⟩
      simp only [insKeyD]
      split
      · rename_i hlt
        refine List.pairwise_cons.mpr ⟨?_, h⟩
        intro b hb
        rcases List.mem_cons.mp hb with hb | hb
        · exact hb ▸ le_of_lt hlt
        · exact le_of_lt (lt_of_le_of_lt (hq b hb) hlt)
      · rename_i hnlt
        refine List.pairwise_cons.mpr ⟨?_, ih hqs⟩
        intro b hb
        rcases List.mem_cons.mp ((insKeyD_perm f p qs).mem_iff.mp hb) with hb | hb
        · exact hb ▸ le_of_not_lt hnlt
        · exact hq b hb

theorem sortKeyA_foldl_perm (xs acc : List α) :
    List.Perm (xs.foldl (fun acc p => insKeyA f p acc) acc) (acc ++ xs) := by
  induction xs generalizing acc with
  | nil => simp
  | cons p xs ih =>
      simp only [List.foldl_cons]
      refine (ih (insKeyA f p acc)).trans ?_
      refine (((insKeyA_perm f p acc).append_right xs).trans ?_)
      simpa using (@List.perm_middle _ p acc xs).symm

theorem sortKeyA_perm (xs : List α) : List.Perm (sortKeyA f xs) xs := by
  simpa using sortKeyA_foldl_perm f xs []

theorem sortKeyD_foldl_perm (xs acc : List α) :
    List.Perm (xs.foldl (fun acc p => insKeyD f p acc) acc) (acc ++ xs) := by
  induction xs generalizing acc with
  | nil => simp
  | cons p xs ih =>
      simp only [List.foldl_cons]
      refine (ih (insKeyD f p acc)).trans ?_
      refine (((insKeyD_perm f p acc).append_right xs).trans ?_)
      simpa using (@List.perm_middle _ p acc xs).symm

theorem sortKeyD_perm (xs : List α) : List.Perm (sortKeyD f xs) xs := by
  simpa using sortKeyD_foldl_perm f xs []

theorem sortKeyA_foldl_pairwise (xs acc : List α)
    (h : acc.Pairwise (fun a b => f a ≤ f b)) :
    (xs.foldl (fun acc p => insKeyA f p acc) acc).Pairwise
      (fun a b => f a ≤ f b) := by
  induction xs generalizing acc with
  | nil => simpa using h
  | cons p xs ih => exact ih _ (insKeyA_pairwise f p acc h)

theorem sortKeyA_pairwise (xs : List α) :
    (sortKeyA f xs).Pairwise (fun a b => f a ≤ f b) :=
  sortKeyA_foldl_pairwise f xs [] (List.Pairwise.nil)

theorem sortKeyD_foldl_pairwise (xs acc : List α)
    (h : acc.Pairwise (fun a b => f b ≤ f a)) :
    (xs.foldl (fun acc p => insKeyD f p acc) acc).Pairwise
      (fun a b => f b ≤ f a) := by
  induction xs generalizing acc with
  | nil => simpa using h
  | cons p xs ih => exact ih _ (insKeyD_pairwise f p acc h)

theorem sortKeyD_pairwise (xs : List α) :
    (sortKeyD f xs).Pairwise (fun a b => f b ≤ f a) :=
  sortKeyD_foldl_pairwise f xs [] (List.Pairwise.nil)

end SortLemmas

section HelperLemmas

theorem enumL_length (xs : List α) : (enumL xs).length = xs.length := by
  simp [enumL]

theorem enumL_map_fst (xs : List α) :
    (enumL xs).map Prod.fst = List.range xs.length :=
  List.map_fst_zip _ _ (by simp)

theorem argsortStable_length (xs : List ℚ) :
    (argsortStable xs).length = xs.length := by
  unfold argsortStable
  rw [List.length_map, (sortKeyA_perm _ _).length_eq, enumL_length]

theorem argsortStable_perm_range (xs : List ℚ) :
    List.Perm (argsortStable xs) (List.range xs.length) := by
  unfold argsortStable
  rw [← enumL_map_fst]
  exact (sortKeyA_perm _ _).map Prod.fst

theorem map_getD_range (xs : List α) (d : α) :
    (List.range xs.length).map (fun i => xs.getD i d) = xs := by
  apply List.ext_getElem
  · simp
  · intro i h1 h2
    simp only [List.getElem_map, List.getElem_range]
    exact List.getD_eq_getElem xs d h2

theorem pairwise_lt_of_le_nodup {l : List ℕ}
    (h1 : l.Pairwise (· ≤ ·)) (h2 : l.Nodup) : l.Pairwise (· < ·) :=
  (h1.and h2).imp (fun h => lt_of_le_of_ne h.1 h.2)

theorem pyHeadSlice_sublist (xs : List α) (k : ℤ) :
    (pyHeadSlice xs k).Sublist xs := by
  unfold pyHeadSlice
  split <;> exact List.take_sublist _ _

theorem mem_ctxFold (len before after : ℕ) (actuals : List ℕ)
    (init : Finset ℕ) (i : ℕ) :
    i ∈ actuals.foldl (fun s a => s ∪ windowIdx len a before after) init ↔
      i ∈ init ∨ ∃ a ∈ actuals, i ∈ windowIdx len a before after := by
  induction actuals generalizing init with
  | nil => simp
  | cons a t ih =>
      rw [List.foldl_cons, ih]
      simp [Finset.mem_union, or_assoc]

theorem ctxSet_congr_perm (len before after : ℕ) {l₁ l₂ : List ℕ}
    (h : List.Perm l₁ l₂) :
    ctxSet len l₁ before after = ctxSet len l₂ before after := by
  unfold ctxSet
  ext i
  rw [mem_ctxFold, mem_ctxFold]
  constructor <;>
    (rintro (hi | ⟨a, ha, hw⟩)
     · exact Or.inl hi
     · exact Or.inr ⟨a, by
         first
           | exact ⟨h.mem_iff.mp ha, hw⟩
           | exact ⟨h.mem_iff.mpr ha, hw⟩⟩)

theorem topIndices_of_le (sims : List ℚ) (k : ℤ)
    (h : (sims.length : ℤ) ≤ k) :
    topIndices sims k = (argsortStable sims).reverse := by
  unfold topIndices pyTailSlice
  split
  · rename_i hk
    have hle : sims.length ≤ k.toNat := by omega
    rw [argsortStable_length]
    rw [Nat.sub_eq_zero_of_le hle, List.drop_zero]
  · rename_i hk
    have hk0 : k = 0 := by omega
    have hlen : sims.length = 0 := by omega
    subst hk0
    simp

end HelperLemmas

/-- C1: for every document, query and provider outcome, the embedding
reducer's reassembled output lists line indices in strictly increasing
original-document order (so no index appears twice even when selected
windows overlap), and the TextTiling reducer's reassembled output lists
the selected segments in strictly increasing original segment order. -/
theorem c1_order_preservation :
    (∀ (score : List Char → ℚ) (topK : ℤ) (content : List Char)
        (before after : ℕ),
      List.Sorted (· < ·) (embedOutIdx score topK content before after)) ∧
    (∀ (maxSegments : ℤ) (q : List Char) (segs : List (List Char)),
      List.Sorted (· < ·)
        ((tileSelected maxSegments q segs).map (fun t => t.1))) := by
  constructor
  · intro score topK content before after
    exact List.Pairwise.filter _ (List.pairwise_lt_range _)
  · intro ms q segs
    have hpw0 : (tileSelected ms q segs).Pairwise (fun a b => a.1 ≤ b.1) := by
      rw [tileSelected]
      exact sortKeyA_pairwise (fun t : ℕ × ℚ × List Char => t.1) _
    have hpw : ((tileSelected ms q segs).map (fun t => t.1)).Pairwise (· ≤ ·) :=
      List.pairwise_map.mpr hpw0
    have h0 : (tileScored q segs).map (fun t => t.1) = List.range segs.length := by
      have hc : ((fun (t : ℕ × ℚ × List Char) => t.1) ∘
          fun p : ℕ × List Char => (p.1, totalScore q p.2, p.2)) = Prod.fst := rfl
      rw [tileScored, List.map_map, hc, enumL_map_fst]
    have n1 : ((sortKeyD (fun t => t.2.1) (tileScored q segs)).map
        (fun t => t.1)).Nodup := by
      refine (((sortKeyD_perm (fun t => t.2.1) (tileScored q segs)).map
        (fun t => t.1)).nodup_iff).mpr ?_
      rw [h0]
      exact List.nodup_range _
    have n2 : ((pyHeadSlice (sortKeyD (fun t => t.2.1) (tileScored q segs))
        ms).map (fun t => t.1)).Nodup := by
      have hs := List.Sublist.map (fun t : ℕ × ℚ × List Char => t.1)
        (pyHeadSlice_sublist
          (sortKeyD (fun t : ℕ × ℚ × List Char => t.2.1) (tileScored q segs))
          ms)
      exact List.Nodup.sublist hs n1
    have n3 : ((tileSelected ms q segs).map (fun t => t.1)).Nodup := by
      rw [tileSelected]
      have hp := List.Perm.map (fun t : ℕ × ℚ × List Char => t.1)
        (sortKeyA_perm (fun t : ℕ × ℚ × List Char => t.1)
          (pyHeadSlice (sortKeyD (fun t : ℕ × ℚ × List Char => t.2.1)
            (tileScored q segs)) ms))
      exact hp.nodup_iff.mpr n2
    exact pairwise_lt_of_le_nodup hpw n3

theorem topIndices_pair_tie (c : ℚ) : topIndices [c, c] 1 = [1] := by
  have h2 : sortKeyA Prod.snd [((0 : ℕ), c), (1, c)] = [(0, c), (1, c)] := by
    simp [sortKeyA, insKeyA, lt_irrefl]
  have h3 : argsortStable [c, c] = [0, 1] := by
    unfold argsortStable
    have he : enumL [c, c] = [(0, c), (1, c)] := rfl
    rw [he, h2]
    rfl
  unfold topIndices
  rw [h3]
  rfl

/-- C2 counterexample: a document whose two lines are both eligible and
are assigned identical scores by the provider; with `topK = 1` the
reducer selects the line at batch position 1 — the one scored second —
not the line scored first as claimed. -/
theorem c2_counterexample :
    (validLines (splitNL docPair)).map Prod.fst = [0, 1] ∧
    embedSelected (fun _ => (0 : ℚ)) 1 docPair = [1] ∧
    ([1] : List ℕ) ≠ [0] := by
  refine ⟨by decide, by decide, by decide⟩

/-- C2 (amended): for a document with exactly two eligible lines that
the provider scores identically, with `topK = 1` the embedding reducer
selects the line scored second (the higher batch position): the stable
ascending argsort keeps tied scores in batch order and the selection
takes from the top end, so ties resolve to the later-computed index. -/
theorem c2_ties_resolve_to_later (score : List Char → ℚ)
    (content : List Char) (i0 i1 : ℕ) (t0 t1 : List Char)
    (hv : validLines (splitNL content) = [(i0, t0), (i1, t1)])
    (heq : score t0 = score t1) :
    embedSelected score 1 content = [i1] := by
  show (topIndices (simScores score (validLines (splitNL content))) 1).map
      (fun i => ((validLines (splitNL content)).map Prod.fst).getD i 0) = [i1]
  rw [hv]
  have hs : simScores score [(i0, t0), (i1, t1)] = [score t1, score t1] := by
    simp [simScores, heq]
  rw [hs, topIndices_pair_tie]
  simp

/-- Witness for `c2_ties_resolve_to_later` at a concrete document and a
constant provider. -/
theorem c2_ties_resolve_to_later_witness :
    embedSelected (fun _ => (1 : ℚ)) 1 docPair = [1] :=
  c2_ties_resolve_to_later (fun _ => (1 : ℚ)) docPair 0 1
    ("aaaaaaaaaaaa".data) ("bbbbbbbbbbbb".data) (by decide) rfl

/-- C3 counterexample: neither reducer rejects a parameter below 1.
With `topK = 0` the embedding reducer silently returns a normal result
— in fact the Python slice `[-0:]` selects every eligible line, so here
the whole document comes back.  With `maxSegments = 0` the TextTiling
reducer silently returns the empty reduction the claim says is
prevented, and still records its timing. -/
theorem c3_counterexample :
    (EmbeddingReducer.findRelevantContext (fun _ => (0 : ℚ)) 0 docPair []
        0 0 1 1 1 none).1 = docPair ∧
    TextTilingReducer.findRelevantContext
        (fun _ => some ["xxx".data, "yyy".data]) 0 docPair [] 1 none
      = ([], 1, some ⟨1, 2, 0⟩) := by
  refine ⟨by decide, by decide⟩

/-- C3 (amended): the boundary `topK`/`maxSegments` < 1 is not
validated.  `topK = 0` reaches the Python slice `[-0:]`, which selects
every eligible line — the same selection as a `topK` equal to the
eligible-line count; `maxSegments = 0` truncates the ranked segment
list to nothing, so on any successful non-empty segmentation the
reducer silently returns the empty text. -/
theorem c3_no_validation :
    (∀ sims : List ℚ,
      topIndices sims 0 = topIndices sims (sims.length : ℤ)) ∧
    (∀ (segf : List Char → Option (List (List Char)))
        (content query : List Char) (tTotal : ℚ) (prev : Option TileTiming)
        (segs : List (List Char)),
      segf content = some segs → segs ≠ [] →
      (TextTilingReducer.findRelevantContext segf 0 content query tTotal
        prev).1 = []) := by
  constructor
  · intro sims
    have h0 : topIndices sims 0 = (argsortStable sims).reverse := by
      unfold topIndices pyTailSlice
      norm_num
    have h1 : topIndices sims (sims.length : ℤ) =
        (argsortStable sims).reverse :=
      topIndices_of_le sims _ (le_refl _)
    rw [h0, h1]
  · intro segf content query tT prev segs hsome hne
    unfold TextTilingReducer.findRelevantContext
    rw [hsome]
    have hie : segs.isEmpty = false := by
      cases segs with
      | nil => exact absurd rfl hne
      | cons a t => rfl
    simp only [hie, Bool.false_eq_true, if_false]
    have hsel : tileSelected 0 query segs = [] := rfl
    rw [hsel]
    rfl

/-- Witness for `c3_no_validation` at a concrete successful two-segment
segmentation. -/
theorem c3_no_validation_witness :
    (TextTilingReducer.findRelevantContext
      (fun _ => some ["xxx".data, "yyy".data]) 0 doc40 [] 1 none).1 = [] :=
  c3_no_validation.2 (fun _ => some ["xxx".data, "yyy".data]) doc40 [] 1
    none ["xxx".data, "yyy".data] rfl (by decide)

/-- C4 counterexample: on a 40-line document with pairwise distinct
lines, a failing segmentation makes the reducer return lines 10–29 —
ten lines before the midpoint line 20 but only nine after it — which
differs from the symmetric ±10-line window (lines 10–30) around the
midpoint. -/
theorem c4_counterexample :
    (TextTilingReducer.findRelevantContext (fun _ => none) 3 doc40 [] 1
      none).1 ≠ specSymmetricMidWindow doc40 := by
  decide

/-- C4 (amended): whenever segmentation fails, the TextTiling reducer
silently returns the lines with indices in
`[max(0, mid - 10), mid + 10)` — up to ten lines before the midpoint
line `mid = lineCount / 2` and up to nine after it — records a timing
entry with a segment count of 0, and propagates no error; the returned
text depends only on the document, so it is identical on every run. -/
theorem c4_fallback_window (segf : List Char → Option (List (List Char)))
    (maxSegments : ℤ) (content query : List Char) (tTotal : ℚ)
    (prev : Option TileTiming) (h : segf content = none) :
    TextTilingReducer.findRelevantContext segf maxSegments content query
        tTotal prev
      = (joinNL (pySlice (splitNL content) ((splitNL content).length / 2 - 10)
          ((splitNL content).length / 2 + 10)), tTotal,
          some ⟨tTotal, 0, query.length⟩) := by
  unfold TextTilingReducer.findRelevantContext
  rw [h]
  rfl

/-- Witness for `c4_fallback_window` at a concrete always-failing
provider and the 40-line document. -/
theorem c4_fallback_window_witness :
    TextTilingReducer.findRelevantContext (fun _ => none) 3 doc40
        ("q".data) 1 none
      = (joinNL (pySlice (splitNL doc40) ((splitNL doc40).length / 2 - 10)
          ((splitNL doc40).length / 2 + 10)), 1, some ⟨1, 0, 1⟩) :=
  c4_fallback_window (fun _ => none) 3 doc40 ("q".data) 1 none rfl

theorem densityScore_eq_spec (seg : List Char) :
    densityScore seg = specDensityScore seg := by
  unfold densityScore specDensityScore
  congr 2
  rw [List.filter_map, List.length_map]
  rfl

theorem keywordHits_eq_keyTermScore (seg : List Char) :
    specKeywordHits seg = keyTermScore seg := by
  unfold specKeywordHits keyTermScore specKeywords keyTerms
  congr 1

theorem normalizedScore_eq_spec (q seg : List Char) :
    normalizedScore q seg = specLexicalOverlap q seg := by
  unfold normalizedScore specLexicalOverlap queryWordSet
  by_cases h : pySplitWs (lowerL q) = []
  · rw [h]
    simp
  · rw [if_neg (by simpa using h), if_neg (by simpa [List.dedup_eq_nil] using h)]
    have hcard : (pySplitWs (lowerL q)).toFinset.card =
        (pySplitWs (lowerL q)).dedup.length := List.card_toFinset _
    have hnodup : ((pySplitWs (lowerL q)).dedup.filter
        (fun w => decide (w ∈ pySplitWs (lowerL seg)))).Nodup :=
      (List.nodup_dedup _).filter _
    have hset : ((pySplitWs (lowerL q)).dedup.filter
          (fun w => decide (w ∈ pySplitWs (lowerL seg)))).toFinset =
        (pySplitWs (lowerL q)).toFinset ∩ (pySplitWs (lowerL seg)).toFinset := by
      ext a
      simp [List.mem_filter, List.mem_dedup]
    have hinter : ((pySplitWs (lowerL q)).toFinset ∩
          (pySplitWs (lowerL seg)).toFinset).card =
        ((pySplitWs (lowerL q)).dedup.filter
          (fun w => decide (w ∈ pySplitWs (lowerL seg)))).length := by
      rw [← hset, List.toFinset_card_of_nodup hnodup]
    rw [hcard, hinter]

/-- C5: for every segment and query, the TextTiling reducer's composite
score equals the specification's formula
`lexicalOverlap + 0.3 * keywordHits + 0.1 * densityScore`, with
`lexicalOverlap` the shared distinct case-folded query words over the
distinct query word count (0 for a wordless query), `keywordHits` the
number of the five fixed keywords occurring case-insensitively as
substrings of the segment, and `densityScore` the non-blank trimmed
line count over `max(1, newline count)`. -/
theorem c5_composite_score (q seg : List Char) :
    totalScore q seg = specCompositeScore q seg := by
  unfold totalScore specCompositeScore
  rw [normalizedScore_eq_spec, keywordHits_eq_keyTermScore,
    densityScore_eq_spec]
  ring

/-- C6: on the ten-line document `doc6` where the provider ranks line 5
first and line 4 second, `topK = 2` with two lines of context on each
side yields exactly the union of windows `[3,7]` and `[2,6]`: indices
2,3,4,5,6,7 in order, each exactly once, and the reassembled text is
lines 2–7. -/
theorem c6_window_union_scenario :
    embedOutIdx score6 2 doc6 2 2 = [2, 3, 4, 5, 6, 7] ∧
    (EmbeddingReducer.findRelevantContext score6 2 doc6 [] 2 2 1 1 1
        none).1
      = joinNL [lineC6 2, lineC6 3, lineC6 4, lineC6 5, lineC6 6,
          lineC6 7] := by
  refine ⟨by decide, by decide⟩

/-- C8: a document with no eligible line (none both non-blank and
longer than ten characters once stripped) is returned unchanged with a
zero elapsed time, on every provider, `topK`, window and clock; the
call cannot fail and the stored timing is left as it was. -/
theorem c8_no_eligible_noop (score : List Char → ℚ) (topK : ℤ)
    (content query : List Char) (before after : ℕ)
    (tTotal tEncoding tSimilarity : ℚ) (prev : Option EmbedTiming)
    (h : validLines (splitNL content) = []) :
    EmbeddingReducer.findRelevantContext score topK content query before
        after tTotal tEncoding tSimilarity prev = (content, 0, prev) := by
  simp only [EmbeddingReducer.findRelevantContext, h, List.isEmpty_nil,
    if_true]
  rw [joinNL_splitNL]

/-- Witness for `c8_no_eligible_noop`: a two-line document whose lines
are short. -/
theorem c8_no_eligible_noop_witness :
    EmbeddingReducer.findRelevantContext (fun _ => (0 : ℚ)) 5
        ("hi\nok".data) ("q".data) 2 2 1 1 1 none
      = ("hi\nok".data, 0, none) :=
  c8_no_eligible_noop (fun _ => (0 : ℚ)) 5 ("hi\nok".data) ("q".data) 2 2
    1 1 1 none (by decide)

theorem findRelevantContext_topIndices_congr (score : List Char → ℚ)
    (content query : List Char) (before after : ℕ)
    (tT tE tS : ℚ) (prev : Option EmbedTiming) (k₁ k₂ : ℤ)
    (h : topIndices (simScores score (validLines (splitNL content))) k₁ =
      topIndices (simScores score (validLines (splitNL content))) k₂) :
    EmbeddingReducer.findRelevantContext score k₁ content query before
        after tT tE tS prev
      = EmbeddingReducer.findRelevantContext score k₂ content query before
          after tT tE tS prev := by
  simp only [EmbeddingReducer.findRelevantContext, embedOutIdx,
    embedSelected]
  simp only [h]

/-- C7: when `topK` exceeds the number of eligible lines (and at least
one line is eligible), the embedding reducer does not fail: the
selected original indices are a permutation of all eligible lines'
indices (`topK` is effectively clamped to the eligible-line count), the
whole result is the same as with `topK` equal to that count, and the
output text reassembles exactly the union of all eligible lines'
context windows. -/
theorem c7_topk_clamped (score : List Char → ℚ) (content query : List Char)
    (before after : ℕ) (tT tE tS : ℚ) (prev : Option EmbedTiming) (k : ℤ)
    (hne : validLines (splitNL content) ≠ [])
    (hk : ((validLines (splitNL content)).length : ℤ) < k) :
    List.Perm (embedSelected score k content)
      ((validLines (splitNL content)).map Prod.fst) ∧
    EmbeddingReducer.findRelevantContext score k content query before
        after tT tE tS prev
      = EmbeddingReducer.findRelevantContext score
          ((validLines (splitNL content)).length : ℤ) content query before
          after tT tE tS prev ∧
    (EmbeddingReducer.findRelevantContext score k content query before
        after tT tE tS prev).1
      = joinNL (((List.range (splitNL content).length).filter
          (fun i => decide (i ∈ ctxSet (splitNL content).length
            ((validLines (splitNL content)).map Prod.fst) before
            after))).map (fun i => (splitNL content).getD i [])) := by
  have hlen : (simScores score (validLines (splitNL content))).length =
      (validLines (splitNL content)).length := by
    simp [simScores]
  have htop : topIndices (simScores score (validLines (splitNL content))) k
      = (argsortStable (simScores score (validLines (splitNL content)))).reverse :=
    topIndices_of_le _ _ (by rw [hlen]; exact le_of_lt hk)
  have htop2 : topIndices (simScores score (validLines (splitNL content)))
        (((validLines (splitNL content)).length : ℕ) : ℤ)
      = (argsortStable (simScores score (validLines (splitNL content)))).reverse :=
    topIndices_of_le _ _ (by rw [hlen])
  have hsel : List.Perm (embedSelected score k content)
      ((validLines (splitNL content)).map Prod.fst) := by
    have hdef : embedSelected score k content =
        (topIndices (simScores score (validLines (splitNL content))) k).map
          (fun i => ((validLines (splitNL content)).map Prod.fst).getD i 0) :=
      rfl
    rw [hdef, htop]
    have hperm : List.Perm
        (argsortStable (simScores score (validLines (splitNL content))))
        (List.range (validLines (splitNL content)).length) := by
      have := argsortStable_perm_range
        (simScores score (validLines (splitNL content)))
      rwa [hlen] at this
    have hrev : List.Perm
        ((argsortStable (simScores score (validLines (splitNL content)))).reverse)
        (List.range (validLines (splitNL content)).length) :=
      (List.reverse_perm _).trans hperm
    have hmap := hrev.map
      (fun i => ((validLines (splitNL content)).map Prod.fst).getD i 0)
    refine hmap.trans ?_
    have hlm : (validLines (splitNL content)).length =
        ((validLines (splitNL content)).map Prod.fst).length := by
      rw [List.length_map]
    rw [hlm, map_getD_range]
  have hie : (validLines (splitNL content)).isEmpty = false := by
    cases hvv : validLines (splitNL content) with
    | nil => exact absurd hvv hne
    | cons a t => rfl
  have hctx : ctxSet (splitNL content).length (embedSelected score k content)
        before after
      = ctxSet (splitNL content).length
          ((validLines (splitNL content)).map Prod.fst) before after :=
    ctxSet_congr_perm _ _ _ hsel
  refine ⟨hsel, findRelevantContext_topIndices_congr score content query
    before after tT tE tS prev k _ (htop.trans htop2.symm), ?_⟩
  simp only [EmbeddingReducer.findRelevantContext, embedOutIdx, hie,
    Bool.false_eq_true, if_false, hctx]

/-- Witness for `c7_topk_clamped`: a two-eligible-line document with
`topK = 5`. -/
theorem c7_topk_clamped_witness :
    List.Perm (embedSelected (fun _ => (0 : ℚ)) 5 docPair)
      ((validLines (splitNL docPair)).map Prod.fst) ∧
    EmbeddingReducer.findRelevantContext (fun _ => (0 : ℚ)) 5 docPair []
        1 1 1 1 1 none
      = EmbeddingReducer.findRelevantContext (fun _ => (0 : ℚ))
          ((validLines (splitNL docPair)).length : ℤ) docPair [] 1 1 1 1 1
          none ∧
    (EmbeddingReducer.findRelevantContext (fun _ => (0 : ℚ)) 5 docPair []
        1 1 1 1 1 none).1
      = joinNL (((List.range (splitNL docPair).length).filter
          (fun i => decide (i ∈ ctxSet (splitNL docPair).length
            ((validLines (splitNL docPair)).map Prod.fst) 1
            1))).map (fun i => (splitNL docPair).getD i [])) :=
  c7_topk_clamped (fun _ => (0 : ℚ)) docPair [] 1 1 1 1 1 none 5
    (by decide) (by decide)

/-- C9: each of the five fixed keywords contributes at most 1 to
`key_term_score` no matter how often it occurs — the score only depends
on which keywords are present — so the score is at most 5 and the
keyword term of the composite score is at most 1.5. -/
theorem c9_keyword_hits_bounded :
    (∀ seg, keyTermScore seg ≤ 5 ∧
      (keyTermScore seg : ℚ) * (3 / 10) ≤ 3 / 2) ∧
    (∀ s t,
      (∀ kw ∈ keyTerms, occursIn kw (lowerL s) = occursIn kw (lowerL t)) →
      keyTermScore s = keyTermScore t) := by
  constructor
  · intro seg
    have h5 : keyTermScore seg ≤ 5 := by
      have h := List.length_filter_le
        (fun t => occursIn t (lowerL seg)) keyTerms
      simpa [keyTermScore] using h
    refine ⟨h5, ?_⟩
    have hq : (keyTermScore seg : ℚ) ≤ 5 := by exact_mod_cast h5
    nlinarith
  · intro s t h
    unfold keyTermScore
    congr 1
    exact List.filter_congr (fun kw hkw => h kw hkw)

/-- Witness for `c9_keyword_hits_bounded`: a segment repeating
"status" scores the same as one containing it once. -/
theorem c9_keyword_hits_bounded_witness :
    keyTermScore ("status status status".data) =
      keyTermScore ("status!".data) :=
  c9_keyword_hits_bounded.2 ("status status status".data)
    ("status!".data) (by decide)

/-- C10: on the degenerate early returns (embedding reducer with no
eligible line; TextTiling reducer when segmentation succeeds with zero
segments) the reducer returns before writing `self.last_timing`, so the
stored timing state after the call is exactly what it was before. -/
theorem c10_degenerate_paths_keep_timing :
    (∀ (score : List Char → ℚ) (topK : ℤ) (content query : List Char)
        (before after : ℕ) (tT tE tS : ℚ) (prev : Option EmbedTiming),
      validLines (splitNL content) = [] →
      (EmbeddingReducer.findRelevantContext score topK content query
        before after tT tE tS prev).2.2 = prev) ∧
    (∀ (segf : List Char → Option (List (List Char))) (maxSegments : ℤ)
        (content query : List Char) (tT : ℚ) (prev : Option TileTiming),
      segf content = some [] →
      (TextTilingReducer.findRelevantContext segf maxSegments content
        query tT prev).2.2 = prev) := by
  constructor
  · intro score topK content query before after tT tE tS prev h
    simp only [EmbeddingReducer.findRelevantContext, h, List.isEmpty_nil,
      if_true]
  · intro segf ms content query tT prev h
    unfold TextTilingReducer.findRelevantContext
    rw [h]
    rfl

/-- Witness for `c10_degenerate_paths_keep_timing` at concrete
degenerate calls carrying a previous timing record. -/
theorem c10_degenerate_paths_keep_timing_witness :
    (EmbeddingReducer.findRelevantContext (fun _ => (0 : ℚ)) 3 ("ab".data)
        [] 1 1 1 1 1 (some ⟨2, 2, 2, 2, 2⟩)).2.2 = some ⟨2, 2, 2, 2, 2⟩ ∧
    (TextTilingReducer.findRelevantContext (fun _ => some []) 3 docPair
        [] 1 (some ⟨7, 7, 7⟩)).2.2 = some ⟨7, 7, 7⟩ :=
  ⟨c10_degenerate_paths_keep_timing.1 (fun _ => (0 : ℚ)) 3 ("ab".data) []
      1 1 1 1 1 (some ⟨2, 2, 2, 2, 2⟩) (by decide),
    c10_degenerate_paths_keep_timing.2 (fun _ => some []) 3 docPair [] 1
      (some ⟨7, 7, 7⟩) rfl⟩
